import Mathlib

/-!
# Verification of the coros-pulse-ai training-load pipeline

A shallow embedding of the core derivation pipeline of the repository
(`src/analysis.py`, `src/history_backfill.py`, `src/main.py`): per-session
training impulse (TRIMP), the fitness/fatigue EWMA filter, the VDOT
performance estimator, aerobic decoupling, pace parsing/formatting, HR
profile resolution, and the weekly aggregators.

Modelling conventions:
* Python floats are modelled as exact rationals (`ℚ`) where the code is
  algebraic, and as real numbers (`ℝ`) where the code applies transcendental
  functions (`exp`, `**1.06`).
* The numeric columns are numpy float64 scalars (`pd.to_numeric`,
  `np.mean`), so a division by zero raises no exception: it yields `inf`,
  `-inf` or `nan`.  Where the source can hit a zero denominator the
  embedding spells out the IEEE outcome case by case: the TRIMP
  heart-rate-reserve clamp at `max_hr = rest_hr` (`hrrRow`, `hrrVec`,
  noting `max(0, min(1, nan)) = 1` in Python while pandas `clip` keeps
  NaN) and the decoupling division by a zero efficiency factor (the
  `DecOut.nonFinite` outcome).  Divisions the source does guard are
  modelled with Lean's totalized `x / 0 = 0`, which those guards make
  unreachable.
* Python strings are modelled as `List Char`; `str.split`, `str.replace`
  and `int()` (ASCII digits, optional sign, optional surrounding ASCII
  whitespace, single underscores between digits) are modelled explicitly.
* Python's `round` (banker's rounding, round-half-to-even) is modelled by
  `pyRoundInt` over any linear ordered field with a floor.
* Calendar dates are modelled as natural day numbers with day 0 a Monday,
  so a day `d` is a Sunday iff `d % 7 = 6`.
-/

/-! ## Python-style rounding (round-half-to-even) and clamping -/

/-- Python's `round(x)`: nearest integer, ties to the even integer. -/
def pyRoundInt {α : Type} [LinearOrderedField α] [FloorRing α] (x : α) : ℤ :=
  let n := ⌊x⌋
  let f := x - (n : α)
  if f < 1/2 then n
  else if 1/2 < f then n + 1
  else if n % 2 = 0 then n else n + 1

/-- Python's `round(x, 1)`. -/
def pyRound1 {α : Type} [LinearOrderedField α] [FloorRing α] (x : α) : α :=
  (pyRoundInt (10 * x) : α) / 10

/-- Python's `round(x, 2)`. -/
def pyRound2 {α : Type} [LinearOrderedField α] [FloorRing α] (x : α) : α :=
  (pyRoundInt (100 * x) : α) / 100

/-- Python `max(0, min(1, x))`, the clamp used on heart-rate reserve. -/
def clamp01 {α : Type} [LinearOrder α] [Zero α] [One α] (x : α) : α :=
  max 0 (min 1 x)

theorem pyRoundInt_le (α : Type) [LinearOrderedField α] [FloorRing α] (x : α) :
    ⌊x⌋ ≤ pyRoundInt x ∧ pyRoundInt x ≤ ⌊x⌋ + 1 := by
  unfold pyRoundInt
  dsimp only
  split
  · exact ⟨le_refl _, by omega⟩
  · split
    · exact ⟨by omega, le_refl _⟩
    · split
      · exact ⟨le_refl _, by omega⟩
      · exact ⟨by omega, le_refl _⟩

/-- Characterization of `pyRoundInt` away from ties. -/
theorem pyRoundInt_eq_of {α : Type} [LinearOrderedField α] [FloorRing α]
    (x : α) (n : ℤ) (h1 : (n : α) - 1/2 < x) (h2 : x < (n : α) + 1/2) :
    pyRoundInt x = n := by
  rcases le_or_lt (n : α) x with hnx | hxn
  · have hfl : ⌊x⌋ = n := by
      rw [Int.floor_eq_iff]
      refine ⟨hnx, ?_⟩
      calc x < (n : α) + 1/2 := h2
        _ ≤ (n : α) + 1 := by norm_num
    unfold pyRoundInt
    dsimp only
    rw [hfl]
    have hf : x - (n : α) < 1/2 := by linarith
    rw [if_pos hf]
  · have hfl : ⌊x⌋ = n - 1 := by
      rw [Int.floor_eq_iff]
      push_cast
      constructor
      · linarith
      · linarith
    unfold pyRoundInt
    dsimp only
    rw [hfl]
    have hf : ¬ (x - ((n - 1 : ℤ) : α) < 1/2) := by
      push_cast
      push_neg
      linarith
    have hf2 : 1/2 < x - ((n - 1 : ℤ) : α) := by
      push_cast
      linarith
    rw [if_neg hf, if_pos hf2]
    omega

theorem pyRoundInt_zero (α : Type) [LinearOrderedField α] [FloorRing α] :
    pyRoundInt (0 : α) = 0 :=
  pyRoundInt_eq_of 0 0 (by norm_num) (by norm_num)

theorem pyRound1_zero (α : Type) [LinearOrderedField α] [FloorRing α] :
    pyRound1 (0 : α) = 0 := by
  unfold pyRound1
  rw [mul_zero, pyRoundInt_zero]
  norm_num

/-- Equation `pyRound1 x = n/10` follows from a strict enclosure of `10*x`. -/
theorem pyRound1_eq_of {α : Type} [LinearOrderedField α] [FloorRing α]
    (x : α) (n : ℤ) (h1 : (n : α) - 1/2 < 10 * x) (h2 : 10 * x < (n : α) + 1/2) :
    pyRound1 x = (n : α) / 10 := by
  unfold pyRound1
  rw [pyRoundInt_eq_of (10 * x) n h1 h2]

/-! ## The fitness-fatigue filter (EWMA, `adjust=False`)

`pandas.Series.ewm(span=s, adjust=False).mean()` over a series
`x₀, x₁, …` computes `y₀ = x₀`, `yᵢ = α·xᵢ + (1-α)·yᵢ₋₁` with
`α = 2/(s+1)`.  This is `ewmaScan` below. -/

/-- One step of the non-bias-corrected EWMA recursion. -/
def ewmaStep (a : ℚ) (acc v : ℚ) : ℚ := a * v + (1 - a) * acc

/-- The EWMA series of a daily series (empty input gives the empty series). -/
def ewmaScan (a : ℚ) : List ℚ → List ℚ
  | [] => []
  | x :: xs => List.scanl (ewmaStep a) x xs

/-- The smoothing factor `alpha = 2/(span+1)`. -/
def alphaOf (span : ℚ) : ℚ := 2 / (span + 1)

/-- Fitness (CTL): span-42 EWMA of the daily load series. -/
def fitnessSeries (daily : List ℚ) : List ℚ := ewmaScan (alphaOf 42) daily

/-- Fatigue (ATL): span-7 EWMA of the daily load series. -/
def fatigueSeries (daily : List ℚ) : List ℚ := ewmaScan (alphaOf 7) daily

/-- Form (TSB) per date: fitness minus fatigue. -/
def formSeries (daily : List ℚ) : List ℚ :=
  List.zipWith (· - ·) (fitnessSeries daily) (fatigueSeries daily)

theorem scanl_take_append {β α : Type} (f : α → β → α) :
    ∀ (l r : List β) (b : α),
      (List.scanl f b (l ++ r)).take (l.length + 1) = List.scanl f b l
  | [], r, b => by
    cases r with
    | nil => simp
    | cons y ys => simp [List.scanl]
  | x :: xs, r, b => by
    simp only [List.cons_append, List.scanl_cons, List.singleton_append,
      List.nil_append, List.length_cons, List.take_succ_cons]
    rw [scanl_take_append f xs r (f b x)]

theorem ewmaScan_take_append (a : ℚ) (xs ys : List ℚ) :
    (ewmaScan a (xs ++ ys)).take xs.length = ewmaScan a xs := by
  cases xs with
  | nil => simp [ewmaScan]
  | cons x xs' =>
    simp only [ewmaScan, List.cons_append, List.length_cons]
    exact scanl_take_append (ewmaStep a) xs' ys x

theorem ewmaScan_length (a : ℚ) (xs : List ℚ) :
    (ewmaScan a xs).length = xs.length := by
  cases xs with
  | nil => rfl
  | cons x xs' => simp [ewmaScan, List.length_scanl]

theorem ewmaScan_getElem?_append (a : ℚ) (xs ys : List ℚ) (i : ℕ)
    (hi : i < xs.length) :
    (ewmaScan a (xs ++ ys))[i]? = (ewmaScan a xs)[i]? := by
  rw [← ewmaScan_take_append a xs ys]
  rw [List.getElem?_take]
  rw [if_pos hi]

/-- C3: all three output series are prefix-stable under extension. -/
theorem fitness_fatigue_prefix_stable (xs ys : List ℚ) :
    (fitnessSeries (xs ++ ys)).take xs.length = fitnessSeries xs ∧
    (fatigueSeries (xs ++ ys)).take xs.length = fatigueSeries xs ∧
    (formSeries (xs ++ ys)).take xs.length = formSeries xs := by
  refine ⟨ewmaScan_take_append _ xs ys, ewmaScan_take_append _ xs ys, ?_⟩
  unfold formSeries fitnessSeries fatigueSeries
  rw [List.take_zipWith]
  rw [ewmaScan_take_append, ewmaScan_take_append]

/-! ## Python string primitives on `List Char`

Strings are modelled as `List Char`.  `int()` is modelled for ASCII input:
optional surrounding ASCII whitespace, an optional sign, then decimal
digits, allowing Python's single-underscore digit grouping. -/

/-- Python `s.split(sep)` for a one-character separator. -/
def splitOnChar (sep : Char) : List Char → List (List Char)
  | [] => [[]]
  | c :: cs =>
    match splitOnChar sep cs with
    | [] => [[c]]
    | p :: ps => if c = sep then [] :: p :: ps else (c :: p) :: ps

/-- Value of a decimal digit character (ASCII 48–57). -/
def digVal? (c : Char) : Option ℕ :=
  if '0' ≤ c ∧ c ≤ '9' then some (c.toNat - 48) else none

/-- Digit-sequence scanner of Python `int()`: the Boolean records whether
the previous character was a digit; an underscore is accepted only right
after a digit and the sequence must end in a digit. -/
def pyDigitsAux : ℕ → Bool → List Char → Option ℕ
  | acc, prevDigit, [] => if prevDigit then some acc else none
  | acc, prevDigit, c :: cs =>
    match digVal? c with
    | some d => pyDigitsAux (acc * 10 + d) true cs
    | none => if prevDigit && c = '_' then pyDigitsAux acc false cs else none

/-- Unsigned decimal literal: at least one digit, which must come first. -/
def pyDigits? (cs : List Char) : Option ℕ := pyDigitsAux 0 false cs

/-- Python `str.strip()` (ASCII whitespace). -/
def trimChars (cs : List Char) : List Char :=
  ((cs.dropWhile Char.isWhitespace).reverse.dropWhile Char.isWhitespace).reverse

/-- Sign/strip-free core of Python `int(s)`. -/
def pyIntCore : List Char → Option ℤ
  | [] => none
  | c :: rest =>
    if c = '+' then (pyDigits? rest).map (fun n => (n : ℤ))
    else if c = '-' then (pyDigits? rest).map (fun n => -(n : ℤ))
    else (pyDigits? (c :: rest)).map (fun n => (n : ℤ))

/-- Python `int(s)` on a string: strip, optional sign, decimal digits. -/
def pyInt? (cs : List Char) : Option ℤ := pyIntCore (trimChars cs)

/-- Function `parse_pace` from `analysis.py`: split on the apostrophe, parse the
minute field, strip double quotes from the second field and parse it;
any failure yields 0. -/
def parse_pace (cs : List Char) : ℤ :=
  match splitOnChar '\'' cs with
  | p0 :: p1 :: _ =>
    match pyInt? p0, pyInt? (p1.filter (fun c => c ≠ '"')) with
    | some m, some s => m * 60 + s
    | _, _ => 0
  | _ => 0

/-- Function `parse_pace_to_speed` from `analysis.py`: like `parse_pace` but
returns `1000 / total_seconds` (m/s), and 0 when total is 0. -/
def parse_pace_to_speed (cs : List Char) : ℚ :=
  match splitOnChar '\'' cs with
  | p0 :: p1 :: _ =>
    match pyInt? p0, pyInt? (p1.filter (fun c => c ≠ '"')) with
    | some m, some s =>
      let total : ℤ := m * 60 + s
      if total = 0 then 0 else 1000 / (total : ℚ)
    | _, _ => 0
  | _ => 0

/-- Decimal rendering of a natural number, as Python string formatting
produces it (most significant digit first, `0` for zero). -/
def natChars (n : ℕ) : List Char :=
  if n = 0 then ['0'] else (Nat.digits 10 n).reverse.map Nat.digitChar

/-- Format `\x7bn:02d\x7d`: zero-pad to two characters. -/
def pad2 (n : ℕ) : List Char :=
  if n < 10 then '0' :: natChars n else natChars n

/-- The report-row pace formatter
`f"{int(p // 60)}'{int(p % 60):02d}\""` guarded by `p > 0`, else `"-"`. -/
def pace_fmt (p : ℚ) : List Char :=
  if 0 < p then
    natChars (Int.toNat ⌊p / 60⌋) ++
      ('\'' :: (pad2 (Int.toNat ⌊p - 60 * (⌊p / 60⌋ : ℚ)⌋) ++ ['"']))
  else ['-']

/-! ### Digit-string lemmas -/

theorem digVal?_digitChar (d : ℕ) (hd : d < 10) :
    digVal? (Nat.digitChar d) = some d := by
  interval_cases d <;> decide

theorem digitChar_props (d : ℕ) (hd : d < 10) :
    Nat.digitChar d ≠ '\'' ∧ Nat.digitChar d ≠ '"' ∧ Nat.digitChar d ≠ '+' ∧
    Nat.digitChar d ≠ '-' ∧ (Nat.digitChar d).isWhitespace = false := by
  interval_cases d <;> exact ⟨by decide, by decide, by decide, by decide, by decide⟩

theorem pyDigitsAux_cons_digit (acc d : ℕ) (hd : d < 10) (b : Bool)
    (cs : List Char) :
    pyDigitsAux acc b (Nat.digitChar d :: cs) = pyDigitsAux (acc * 10 + d) true cs := by
  simp only [pyDigitsAux, digVal?_digitChar d hd]

theorem pyDigitsAux_digits (ds : List ℕ) :
    ∀ (acc : ℕ) (b : Bool), (∀ d ∈ ds, d < 10) → ds ≠ [] →
      pyDigitsAux acc b (ds.map Nat.digitChar) =
        some (ds.foldl (fun a d => a * 10 + d) acc) := by
  induction ds with
  | nil => intro _ _ _ hne; exact absurd rfl hne
  | cons d ds ih =>
    intro acc b h _
    have hd : d < 10 := h d (by simp)
    rw [List.map_cons, pyDigitsAux_cons_digit acc d hd b, List.foldl_cons]
    cases ds with
    | nil => rfl
    | cons e es =>
      exact ih (acc * 10 + d) true (fun x hx => h x (by simp [hx])) (by simp)

theorem foldr_ofDigits (l : List ℕ) :
    l.foldr (fun d a => a * 10 + d) 0 = Nat.ofDigits 10 l := by
  induction l with
  | nil => rfl
  | cons d l ih =>
    rw [List.foldr_cons, ih, Nat.ofDigits_cons]
    ring

theorem natChars_eq_map (n : ℕ) (hn : n ≠ 0) :
    natChars n = (Nat.digits 10 n).reverse.map Nat.digitChar := by
  simp [natChars, hn]

theorem natChars_all_digit (n : ℕ) :
    ∀ c ∈ natChars n, ∃ d, d < 10 ∧ c = Nat.digitChar d := by
  intro c hc
  by_cases hn : n = 0
  · subst hn
    have h0 : natChars 0 = ['0'] := rfl
    rw [h0, List.mem_singleton] at hc
    exact ⟨0, by norm_num, hc.trans (by rfl)⟩
  · rw [natChars_eq_map n hn] at hc
    obtain ⟨d, hd, rfl⟩ := List.mem_map.mp hc
    refine ⟨d, ?_, rfl⟩
    exact Nat.digits_lt_base (by norm_num) (List.mem_reverse.mp hd)

theorem pad2_all_digit (n : ℕ) :
    ∀ c ∈ pad2 n, ∃ d, d < 10 ∧ c = Nat.digitChar d := by
  intro c hc
  unfold pad2 at hc
  split at hc
  · rw [List.mem_cons] at hc
    rcases hc with h0 | hmem
    · exact ⟨0, by norm_num, h0.trans (by rfl)⟩
    · exact natChars_all_digit n c hmem
  · exact natChars_all_digit n c hc

theorem pyDigitsAux_natChars (k : ℕ) (b : Bool) :
    pyDigitsAux 0 b (natChars k) = some k := by
  by_cases hk : k = 0
  · subst hk
    have h0 : natChars 0 = [Nat.digitChar 0] := rfl
    rw [h0, pyDigitsAux_cons_digit 0 0 (by norm_num) b]
    rfl
  · rw [natChars_eq_map k hk]
    have hne : (Nat.digits 10 k).reverse ≠ [] := by
      simp [Nat.digits_ne_nil_iff_ne_zero, hk]
    have hall : ∀ x ∈ (Nat.digits 10 k).reverse, x < 10 := by
      intro x hx
      exact Nat.digits_lt_base (by norm_num) (List.mem_reverse.mp hx)
    have hfold : List.foldl (fun a x => a * 10 + x) 0 ((Nat.digits 10 k).reverse) = k := by
      rw [List.foldl_reverse, foldr_ofDigits, Nat.ofDigits_digits]
    rw [pyDigitsAux_digits ((Nat.digits 10 k).reverse) 0 b hall hne, hfold]

theorem pyDigits?_natChars (n : ℕ) : pyDigits? (natChars n) = some n :=
  pyDigitsAux_natChars n false

theorem pyDigits?_pad2 (k : ℕ) : pyDigits? (pad2 k) = some k := by
  unfold pad2
  by_cases h : k < 10
  · rw [if_pos h]
    show pyDigitsAux 0 false (Nat.digitChar 0 :: natChars k) = some k
    rw [pyDigitsAux_cons_digit 0 0 (by norm_num) false]
    exact pyDigitsAux_natChars k true
  · rw [if_neg h]
    exact pyDigits?_natChars k

theorem dropWhile_of_all_neg {p : Char → Bool} (l : List Char)
    (h : ∀ c ∈ l, p c = false) : l.dropWhile p = l := by
  cases l with
  | nil => rfl
  | cons c cs =>
    rw [List.dropWhile_cons, h c (by simp)]
    simp

theorem trimChars_of_digits (cs : List Char)
    (h : ∀ c ∈ cs, ∃ d, d < 10 ∧ c = Nat.digitChar d) : trimChars cs = cs := by
  have hws : ∀ c ∈ cs, c.isWhitespace = false := by
    intro c hc
    obtain ⟨d, hd, rfl⟩ := h c hc
    exact (digitChar_props d hd).2.2.2.2
  unfold trimChars
  rw [dropWhile_of_all_neg cs hws]
  rw [dropWhile_of_all_neg cs.reverse (fun c hc => hws c (List.mem_reverse.mp hc))]
  exact List.reverse_reverse cs

theorem pyInt?_of_digits (cs : List Char) (hne : cs ≠ [])
    (h : ∀ c ∈ cs, ∃ d, d < 10 ∧ c = Nat.digitChar d) :
    pyInt? cs = (pyDigits? cs).map (fun n => (n : ℤ)) := by
  obtain ⟨c, rest, hcons⟩ := List.exists_cons_of_ne_nil hne
  subst hcons
  obtain ⟨d, hd, hcd⟩ := h c (by simp)
  have hprops := digitChar_props d hd
  unfold pyInt?
  rw [trimChars_of_digits _ h]
  simp only [pyIntCore]
  rw [if_neg (by rw [hcd]; exact hprops.2.2.1), if_neg (by rw [hcd]; exact hprops.2.2.2.1)]

theorem pyInt?_natChars (n : ℕ) : pyInt? (natChars n) = some (n : ℤ) := by
  have hne : natChars n ≠ [] := by
    unfold natChars
    split
    · simp
    · simp [Nat.digits_ne_nil_iff_ne_zero, *]
  rw [pyInt?_of_digits (natChars n) hne (natChars_all_digit n), pyDigits?_natChars]
  rfl

theorem pad2_ne_nil (n : ℕ) : pad2 n ≠ [] := by
  unfold pad2
  split
  · simp
  · unfold natChars
    split
    · simp
    · simp [Nat.digits_ne_nil_iff_ne_zero, *]

theorem pyInt?_pad2 (n : ℕ) : pyInt? (pad2 n) = some (n : ℤ) := by
  rw [pyInt?_of_digits (pad2 n) (pad2_ne_nil n) (pad2_all_digit n), pyDigits?_pad2]
  rfl

/-! ### Split and round-trip lemmas -/

theorem splitOnChar_ne_nil (sep : Char) (l : List Char) : splitOnChar sep l ≠ [] := by
  cases l with
  | nil => simp [splitOnChar]
  | cons c cs =>
    simp only [splitOnChar]
    rcases hs : splitOnChar sep cs with _ | ⟨p, ps⟩
    · simp
    · dsimp only
      split <;> simp

theorem splitOnChar_not_mem (sep : Char) (l : List Char) (h : sep ∉ l) :
    splitOnChar sep l = [l] := by
  induction l with
  | nil => rfl
  | cons c cs ih =>
    have hc : c ≠ sep := fun he => h (by simp [he])
    have hcs : sep ∉ cs := fun hm => h (by simp [hm])
    simp only [splitOnChar]
    rw [ih hcs]
    simp [hc]

theorem splitOnChar_append (sep : Char) (l r : List Char) (h : sep ∉ l) :
    splitOnChar sep (l ++ sep :: r) = l :: splitOnChar sep r := by
  induction l with
  | nil =>
    simp only [List.nil_append, splitOnChar]
    rcases hs : splitOnChar sep r with _ | ⟨p, ps⟩
    · exact absurd hs (splitOnChar_ne_nil sep r)
    · simp
  | cons c cs ih =>
    have hc : c ≠ sep := fun he => h (by simp [he])
    have hcs : sep ∉ cs := fun hm => h (by simp [hm])
    rw [show (c :: cs) ++ sep :: r = c :: (cs ++ sep :: r) from rfl]
    simp only [splitOnChar]
    rw [ih hcs]
    simp [hc]

theorem filter_quote_pad2 (k : ℕ) :
    (pad2 k ++ ['"']).filter (fun c => c ≠ '"') = pad2 k := by
  rw [List.filter_append]
  have h1 : (pad2 k).filter (fun c => c ≠ '"') = pad2 k := by
    rw [List.filter_eq_self]
    intro c hc
    obtain ⟨d, hd, rfl⟩ := pad2_all_digit k c hc
    exact decide_eq_true (digitChar_props d hd).2.1
  rw [h1]
  simp

/-- Reduction of `parse_pace` once the split is known to have two fields. -/
theorem parse_pace_eq_of (cs a b : List Char) (m k : ℤ)
    (hsplit : splitOnChar '\'' cs = [a, b])
    (ha : pyInt? a = some m) (hb : pyInt? (b.filter (fun c => c ≠ '"')) = some k) :
    parse_pace cs = m * 60 + k := by
  unfold parse_pace
  rw [hsplit]
  dsimp only
  rw [ha, hb]

theorem floor_cast_div_nat (s k : ℕ) (hk : 0 < k) :
    ⌊(s : ℚ) / (k : ℚ)⌋ = ((s / k : ℕ) : ℤ) := by
  have hkq : (0 : ℚ) < (k : ℚ) := by exact_mod_cast hk
  rw [Int.floor_eq_iff]
  constructor
  · rw [le_div_iff hkq]
    exact_mod_cast Nat.div_mul_le_self s k
  · rw [div_lt_iff hkq]
    have h1 := Nat.div_add_mod s k
    have h2 := Nat.mod_lt s hk
    have h3 : s < (s / k + 1) * k := by
      calc s = k * (s / k) + s % k := h1.symm
        _ < k * (s / k) + k := by omega
        _ = (s / k + 1) * k := by ring
    exact_mod_cast h3

theorem floor_cast_div_sixty (s : ℕ) :
    ⌊(s : ℚ) / 60⌋ = ((s / 60 : ℕ) : ℤ) := by
  have h := floor_cast_div_nat s 60 (by norm_num)
  rwa [show ((60 : ℕ) : ℚ) = (60 : ℚ) by norm_num] at h

theorem sub_mul_floor_div_sixty (s : ℕ) :
    (s : ℚ) - 60 * (((s / 60 : ℕ) : ℤ) : ℚ) = ((s % 60 : ℕ) : ℚ) := by
  have h1 : (s : ℚ) = 60 * ((s / 60 : ℕ) : ℚ) + ((s % 60 : ℕ) : ℚ) := by
    exact_mod_cast (Nat.div_add_mod s 60).symm
  rw [Int.cast_natCast]
  linarith

/-- For a positive whole number of seconds, the report formatter produces
the canonical `M'SS"` character string. -/
theorem pace_fmt_natCast (s : ℕ) (hs : 0 < s) :
    pace_fmt (s : ℚ) = natChars (s / 60) ++ ('\'' :: (pad2 (s % 60) ++ ['"'])) := by
  unfold pace_fmt
  rw [if_pos (by exact_mod_cast hs)]
  rw [floor_cast_div_sixty s, sub_mul_floor_div_sixty s]
  simp only [Int.floor_natCast, Int.toNat_natCast]

/-- The split of a canonical `M'SS"` character string. -/
theorem splitOnChar_canonical (m k : ℕ) :
    splitOnChar '\'' (natChars m ++ ('\'' :: (pad2 k ++ ['"']))) =
      [natChars m, pad2 k ++ ['"']] := by
  have hm : '\'' ∉ natChars m := by
    intro hmem
    obtain ⟨d, hd, hc⟩ := natChars_all_digit m '\'' hmem
    exact (digitChar_props d hd).1 hc.symm
  have hr : '\'' ∉ pad2 k ++ ['"'] := by
    intro hmem
    rw [List.mem_append] at hmem
    rcases hmem with hmem | hmem
    · obtain ⟨d, hd, hc⟩ := pad2_all_digit k '\'' hmem
      exact (digitChar_props d hd).1 hc.symm
    · simp at hmem
  rw [splitOnChar_append '\'' (natChars m) (pad2 k ++ ['"']) hm]
  rw [splitOnChar_not_mem '\'' (pad2 k ++ ['"']) hr]

/-- Parsing the canonical `M'SS"` string recovers `m*60 + k`. -/
theorem parse_pace_canonical (m k : ℕ) :
    parse_pace (natChars m ++ ('\'' :: (pad2 k ++ ['"']))) = ((m * 60 + k : ℕ) : ℤ) := by
  rw [parse_pace_eq_of _ (natChars m) (pad2 k ++ ['"']) (m : ℤ) (k : ℤ)
    (splitOnChar_canonical m k) (pyInt?_natChars m)
    (by rw [filter_quote_pad2 k]; exact pyInt?_pad2 k)]
  push_cast
  ring

theorem parse_pace_pace_fmt (s : ℕ) : parse_pace (pace_fmt (s : ℚ)) = (s : ℤ) := by
  rcases Nat.eq_zero_or_pos s with hz | hpos
  · subst hz
    have h0 : pace_fmt ((0 : ℕ) : ℚ) = ['-'] := by
      unfold pace_fmt
      rw [if_neg (by norm_num)]
    rw [h0]
    rfl
  · rw [pace_fmt_natCast s hpos, parse_pace_canonical]
    have h : s / 60 * 60 + s % 60 = s := by omega
    rw [h]

theorem parse_pace_no_sep (cs : List Char) (h : '\'' ∉ cs) : parse_pace cs = 0 := by
  unfold parse_pace
  rw [splitOnChar_not_mem '\'' cs h]

theorem natChars_five : natChars 5 = ['5'] := by
  rw [natChars_eq_map 5 (by norm_num)]
  norm_num
  rfl

theorem pad2_thirty : pad2 30 = ['3', '0'] := by
  unfold pad2
  rw [if_neg (by norm_num)]
  rw [natChars_eq_map 30 (by norm_num)]
  norm_num
  exact ⟨rfl, rfl⟩

theorem pace_fmt_330 : pace_fmt ((330 : ℕ) : ℚ) = ['5', '\'', '3', '0', '"'] := by
  rw [pace_fmt_natCast 330 (by norm_num)]
  norm_num [natChars_five, pad2_thirty]

/-- C8 (amended): formatting any whole number of seconds with the
report formatter `pace_fmt` and parsing it back is the identity;
`"5'30\""` parses to 330 and 330 formats to `"5'30\""`; and a string
containing no apostrophe parses to 0.  (The claim does not extend to
the ingestion formatter of `main.py`, whose
`int((pace_decimal - pace_min) * 60)` on binary floats truncates one
second away for about half of all pace values; and strings outside the
exact format can still parse successfully, see the counterexample.) -/
theorem claim_C8_pace_round_trip :
    (∀ s : ℕ, parse_pace (pace_fmt (s : ℚ)) = (s : ℤ)) ∧
    parse_pace ['5', '\'', '3', '0', '"'] = 330 ∧
    pace_fmt ((330 : ℕ) : ℚ) = ['5', '\'', '3', '0', '"'] ∧
    (∀ cs : List Char, '\'' ∉ cs → parse_pace cs = 0) := by
  refine ⟨parse_pace_pace_fmt, ?_, pace_fmt_330, parse_pace_no_sep⟩
  decide

/-- C8 witness: a string with no apostrophe separator parses to 0. -/
theorem claim_C8_witness : parse_pace ['-'] = 0 :=
  claim_C8_pace_round_trip.2.2.2 ['-'] (by decide)

/-- C8 counterexample: the string `"05'30\""` is not of the exact
`M'SS"` format (330 seconds formats as `"5'30\""`), yet it parses to 330
rather than 0, refuting "parsing any string not of this exact format
yields 0/invalid". -/
theorem claim_C8_counterexample :
    parse_pace ['0', '5', '\'', '3', '0', '"'] = 330 ∧
    pace_fmt ((330 : ℕ) : ℚ) ≠ ['0', '5', '\'', '3', '0', '"'] := by
  constructor
  · decide
  · rw [pace_fmt_330]
    decide

/-! ## HR profile resolution (`get_hr_params`, `get_hr_params_vectorized`)

A settings row is an effective-dated (max HR, rest HR) pair; dates are
day numbers.  `get_hr_params` models the row-wise lookup in
`analysis.py` (filter `Date <= target`, take the last row, fall back to
the first row).  `get_hr_params_vectorized` models the
`merge_asof(..., direction='backward')` lookup in `history_backfill.py`:
the settings are sorted by date (a stable sort, modelled by insertion
sort), the last row with date ≤ the query date is taken, and missing
matches are filled from the first row. -/

structure HRProfile where
  date : ℕ
  maxHR : ℚ
  restHR : ℚ
deriving DecidableEq

/-- Row-wise resolver from `analysis.py` (`none` models the `IndexError`
raised on an empty settings table). -/
def get_hr_params (d : ℕ) (ps : List HRProfile) : Option (ℚ × ℚ) :=
  match (ps.filter (fun p => p.date ≤ d)).getLast? with
  | some p => some (p.maxHR, p.restHR)
  | none => ps.head?.map (fun p => (p.maxHR, p.restHR))

/-- Stable insertion of a profile after all earlier-or-equal dates. -/
def insertByDate (p : HRProfile) : List HRProfile → List HRProfile
  | [] => [p]
  | q :: qs => if q.date ≤ p.date then q :: insertByDate p qs else p :: q :: qs

/-- Stable sort by effective date (`sort_values('Date')`). -/
def sortByDate (ps : List HRProfile) : List HRProfile :=
  ps.foldl (fun acc p => insertByDate p acc) []

/-- Vectorized resolver from `history_backfill.py`. -/
def get_hr_params_vectorized (d : ℕ) (ps : List HRProfile) : Option (ℚ × ℚ) :=
  match ((sortByDate ps).filter (fun p => p.date ≤ d)).getLast? with
  | some p => some (p.maxHR, p.restHR)
  | none => (sortByDate ps).head?.map (fun p => (p.maxHR, p.restHR))

/-- The settings table is sorted ascending by effective date. -/
def DateSorted (ps : List HRProfile) : Prop :=
  ps.Pairwise (fun p q => p.date ≤ q.date)

theorem insertByDate_append (p : HRProfile) (acc : List HRProfile)
    (h : ∀ q ∈ acc, q.date ≤ p.date) : insertByDate p acc = acc ++ [p] := by
  induction acc with
  | nil => rfl
  | cons q qs ih =>
    simp only [insertByDate]
    rw [if_pos (h q (by simp))]
    rw [ih (fun r hr => h r (by simp [hr]))]
    simp

theorem sortByDate_aux (ps : List HRProfile) :
    ∀ acc : List HRProfile, DateSorted (acc ++ ps) →
      ps.foldl (fun acc p => insertByDate p acc) acc = acc ++ ps := by
  induction ps with
  | nil => intro acc _; simp
  | cons p ps ih =>
    intro acc h
    have hacc : ∀ q ∈ acc, q.date ≤ p.date := by
      intro q hq
      have := (List.pairwise_append.mp h).2.2 q hq p (by simp)
      exact this
    rw [List.foldl_cons, insertByDate_append p acc hacc]
    have h2 : DateSorted ((acc ++ [p]) ++ ps) := by
      rw [List.append_assoc, List.singleton_append]
      exact h
    rw [ih (acc ++ [p]) h2]
    simp

theorem sortByDate_of_sorted (ps : List HRProfile) (h : DateSorted ps) :
    sortByDate ps = ps := by
  unfold sortByDate
  have := sortByDate_aux ps [] (by simpa using h)
  simpa using this

theorem mem_date_le_getLast (l : List HRProfile) (hne : l ≠ [])
    (hp : l.Pairwise (fun a b => a.date ≤ b.date)) :
    ∀ q ∈ l, q.date ≤ (l.getLast hne).date := by
  induction l with
  | nil => exact absurd rfl hne
  | cons p l ih =>
    intro q hq
    cases l with
    | nil =>
      rw [List.mem_singleton] at hq
      subst hq
      exact le_refl _
    | cons r l' =>
      rw [List.getLast_cons (by simp)]
      rw [List.mem_cons] at hq
      rcases hq with rfl | hq
      · have hhead : ∀ b ∈ r :: l', q.date ≤ b.date := by
          intro b hb
          exact (List.pairwise_cons.mp hp).1 b hb
        exact hhead _ (List.getLast_mem (by simp))
      · exact ih (by simp) (List.pairwise_cons.mp hp).2 q hq

/-- C6: on a nonempty date-sorted settings table the vectorized
(merge_asof) resolver agrees with the row-wise resolver; when the query
date precedes every effective date both return the earliest profile's
values; and when some profile is in effect both return the values of a
latest-dated profile with effective date ≤ the query date. -/
theorem claim_C6_resolver (ps : List HRProfile) (d : ℕ) (hne : ps ≠ [])
    (hs : DateSorted ps) :
    get_hr_params_vectorized d ps = get_hr_params d ps ∧
    ((∀ p ∈ ps, d < p.date) →
      get_hr_params d ps = ps.head?.map (fun p => (p.maxHR, p.restHR))) ∧
    (∀ p ∈ ps, p.date ≤ d →
      ∃ q ∈ ps, q.date ≤ d ∧ (∀ r ∈ ps, r.date ≤ d → r.date ≤ q.date) ∧
        get_hr_params d ps = some (q.maxHR, q.restHR)) := by
  refine ⟨?_, ?_, ?_⟩
  · unfold get_hr_params_vectorized get_hr_params
    rw [sortByDate_of_sorted ps hs]
  · intro h
    have hfilter : ps.filter (fun p => p.date ≤ d) = [] := by
      rw [List.filter_eq_nil_iff]
      intro a ha
      simpa using Nat.not_le.mpr (h a ha)
    unfold get_hr_params
    rw [hfilter]
    rfl
  · intro p hp hpd
    have hlne : ps.filter (fun q => q.date ≤ d) ≠ [] := by
      intro hnil
      rw [List.filter_eq_nil_iff] at hnil
      exact hnil p hp (by simpa using hpd)
    have hpl : (ps.filter (fun q => q.date ≤ d)).Pairwise
        (fun a b => a.date ≤ b.date) := List.Pairwise.filter _ hs
    set q := (ps.filter (fun q => q.date ≤ d)).getLast hlne with hq
    have hqmem : q ∈ ps.filter (fun q => q.date ≤ d) := List.getLast_mem hlne
    rw [List.mem_filter] at hqmem
    refine ⟨q, hqmem.1, by simpa using hqmem.2, ?_, ?_⟩
    · intro r hr hrd
      have hrl : r ∈ ps.filter (fun q => q.date ≤ d) := by
        rw [List.mem_filter]
        exact ⟨hr, by simpa using hrd⟩
      exact mem_date_le_getLast _ hlne hpl r hrl
    · unfold get_hr_params
      rw [List.getLast?_eq_getLast _ hlne]

/-- C6 witness: resolving day 5 against a two-row table dated days 0 and
10 makes the two implementations agree. -/
theorem claim_C6_witness :
    get_hr_params_vectorized 5 [⟨0, 185, 55⟩, ⟨10, 190, 50⟩] =
      get_hr_params 5 [⟨0, 185, 55⟩, ⟨10, 190, 50⟩] :=
  (claim_C6_resolver [⟨0, 185, 55⟩, ⟨10, 190, 50⟩] 5 (by decide)
    (by unfold DateSorted; decide)).1

/-! ## Aerobic decoupling (`calculate_decoupling`)

A split holds a pace string and a heart rate.  `np.mean` is sum/length.
The guard `h1 == 0 or h2 == 0` protects the efficiency-factor divisions,
but nothing guards the final `(ef1 - ef2) / ef1` when `ef1 = 0` (mean
first-half speed 0, e.g. every pace unparseable): the operands are numpy
float64, so that division raises no exception and yields NaN (when
`ef2 = 0` too) or ±inf — a non-finite float that `round(..., 2)` passes
through.  The embedding separates that outcome with a dedicated
constructor, since it is neither `None` nor a real number. -/

structure RunSplit where
  pace : List Char
  hr : ℚ
deriving DecidableEq

/-- Mean as `np.mean` computes it: sum over length. -/
def meanQ (l : List ℚ) : ℚ := l.sum / l.length

/-- First half of the splits, cut at `len // 2`. -/
def firstHalf (splits : List RunSplit) : List RunSplit :=
  splits.take (splits.length / 2)

/-- Second half of the splits. -/
def secondHalf (splits : List RunSplit) : List RunSplit :=
  splits.drop (splits.length / 2)

/-- Mean speed of a half (paces converted by `parse_pace_to_speed`). -/
def halfSpeed (l : List RunSplit) : ℚ :=
  meanQ (l.map (fun s => parse_pace_to_speed s.pace))

/-- Mean heart rate of a half. -/
def halfHR (l : List RunSplit) : ℚ := meanQ (l.map (fun s => s.hr))

/-- Efficiency factor of a half: mean speed / mean heart rate. -/
def efOf (l : List RunSplit) : ℚ := halfSpeed l / halfHR l

/-- Outcome of `calculate_decoupling`: `None` in the source, a
non-finite float (NaN or ±inf) from the unguarded division by
`ef1 = 0`, or a finite value. -/
inductive DecOut where
  | notComputable
  | nonFinite
  | val (q : ℚ)
deriving DecidableEq

/-- Function `calculate_decoupling` from `analysis.py`. -/
def calculate_decoupling (splits : List RunSplit) : DecOut :=
  if splits.length < 4 then DecOut.notComputable
  else if halfHR (firstHalf splits) = 0 ∨ halfHR (secondHalf splits) = 0 then
    DecOut.notComputable
  else if efOf (firstHalf splits) = 0 then DecOut.nonFinite
  else
    DecOut.val (pyRound2 ((efOf (firstHalf splits) - efOf (secondHalf splits)) /
      efOf (firstHalf splits) * 100))

theorem pyRound2_zero (α : Type) [LinearOrderedField α] [FloorRing α] :
    pyRound2 (0 : α) = 0 := by
  unfold pyRound2
  rw [mul_zero, pyRoundInt_zero]
  norm_num

/-- C7 (amended): decoupling is not computable for fewer than 4 splits
or a zero-mean-HR half; a zero first-half efficiency factor slips past
the guards and the unguarded float division returns a non-finite value
(NaN or ±inf); otherwise the result is `(EF1 - EF2)/EF1 * 100` rounded
to two decimals, and equal (necessarily nonzero) efficiency factors
give exactly 0. -/
theorem claim_C7_decoupling (splits : List RunSplit) :
    (splits.length < 4 → calculate_decoupling splits = DecOut.notComputable) ∧
    (halfHR (firstHalf splits) = 0 ∨ halfHR (secondHalf splits) = 0 →
      calculate_decoupling splits = DecOut.notComputable) ∧
    (4 ≤ splits.length → halfHR (firstHalf splits) ≠ 0 →
      halfHR (secondHalf splits) ≠ 0 → efOf (firstHalf splits) = 0 →
      calculate_decoupling splits = DecOut.nonFinite) ∧
    (4 ≤ splits.length → halfHR (firstHalf splits) ≠ 0 →
      halfHR (secondHalf splits) ≠ 0 → efOf (firstHalf splits) ≠ 0 →
      calculate_decoupling splits =
        DecOut.val (pyRound2 ((efOf (firstHalf splits) - efOf (secondHalf splits)) /
          efOf (firstHalf splits) * 100))) ∧
    (4 ≤ splits.length → halfHR (firstHalf splits) ≠ 0 →
      halfHR (secondHalf splits) ≠ 0 → efOf (firstHalf splits) ≠ 0 →
      efOf (firstHalf splits) = efOf (secondHalf splits) →
      calculate_decoupling splits = DecOut.val 0) := by
  refine ⟨?_, ?_, ?_, ?_, ?_⟩
  · intro h
    unfold calculate_decoupling
    rw [if_pos h]
  · intro h
    unfold calculate_decoupling
    by_cases hl : splits.length < 4
    · rw [if_pos hl]
    · rw [if_neg hl, if_pos h]
  · intro hlen h1 h2 hef
    unfold calculate_decoupling
    rw [if_neg (by omega), if_neg (by tauto), if_pos hef]
  · intro hlen h1 h2 hef
    unfold calculate_decoupling
    rw [if_neg (by omega), if_neg (by tauto), if_neg hef]
  · intro hlen h1 h2 hne hef
    unfold calculate_decoupling
    rw [if_neg (by omega), if_neg (by tauto), if_neg hne]
    rw [hef, sub_self, zero_div, zero_mul, pyRound2_zero]

/-- C7 counterexample: four splits whose paces do not parse (speed 0)
with HR 150 pass both guards with EF1 = EF2 = 0; the program then
computes `(0.0 - 0.0) / 0.0`, a NaN — a non-finite result, in
particular not the well-defined formula value 0. -/
theorem claim_C7_counterexample :
    calculate_decoupling
      [⟨['x'], 150⟩, ⟨['x'], 150⟩, ⟨['x'], 150⟩, ⟨['x'], 150⟩] =
      DecOut.nonFinite ∧ DecOut.nonFinite ≠ DecOut.val 0 := by
  refine ⟨?_, by simp⟩
  have hsp : parse_pace_to_speed ['x'] = 0 := rfl
  have hhr1 : halfHR (firstHalf
      [⟨['x'], 150⟩, ⟨['x'], 150⟩, ⟨['x'], 150⟩, ⟨['x'], 150⟩]) = 150 := by
    unfold halfHR firstHalf meanQ
    norm_num
  have hhr2 : halfHR (secondHalf
      [⟨['x'], 150⟩, ⟨['x'], 150⟩, ⟨['x'], 150⟩, ⟨['x'], 150⟩]) = 150 := by
    unfold halfHR secondHalf meanQ
    norm_num
  have hef : efOf (firstHalf
      [⟨['x'], 150⟩, ⟨['x'], 150⟩, ⟨['x'], 150⟩, ⟨['x'], 150⟩]) = 0 := by
    unfold efOf halfSpeed halfHR firstHalf meanQ
    norm_num [hsp]
  unfold calculate_decoupling
  rw [if_neg (by norm_num), if_neg (by rw [hhr1, hhr2]; norm_num), if_pos hef]

/-- C7 witness: four identical splits (pace `5'00"`, HR 150) have
nonzero equal efficiency factors, so the decoupling is exactly 0. -/
theorem claim_C7_witness :
    calculate_decoupling
      [⟨['5', '\'', '0', '0', '"'], 150⟩, ⟨['5', '\'', '0', '0', '"'], 150⟩,
       ⟨['5', '\'', '0', '0', '"'], 150⟩, ⟨['5', '\'', '0', '0', '"'], 150⟩] =
      DecOut.val 0 := by
  have hv : parse_pace_to_speed ['5', '\'', '0', '0', '"'] = 10 / 3 := by
    have h : parse_pace_to_speed ['5', '\'', '0', '0', '"'] =
        1000 / ((300 : ℤ) : ℚ) := rfl
    rw [h]
    norm_num
  have hhr1 : halfHR (firstHalf
      [⟨['5', '\'', '0', '0', '"'], 150⟩, ⟨['5', '\'', '0', '0', '"'], 150⟩,
       ⟨['5', '\'', '0', '0', '"'], 150⟩, ⟨['5', '\'', '0', '0', '"'], 150⟩]) = 150 := by
    unfold halfHR firstHalf meanQ
    norm_num
  have hhr2 : halfHR (secondHalf
      [⟨['5', '\'', '0', '0', '"'], 150⟩, ⟨['5', '\'', '0', '0', '"'], 150⟩,
       ⟨['5', '\'', '0', '0', '"'], 150⟩, ⟨['5', '\'', '0', '0', '"'], 150⟩]) = 150 := by
    unfold halfHR secondHalf meanQ
    norm_num
  have hef1 : efOf (firstHalf
      [⟨['5', '\'', '0', '0', '"'], 150⟩, ⟨['5', '\'', '0', '0', '"'], 150⟩,
       ⟨['5', '\'', '0', '0', '"'], 150⟩, ⟨['5', '\'', '0', '0', '"'], 150⟩]) = 1 / 45 := by
    unfold efOf halfSpeed halfHR firstHalf meanQ
    norm_num [hv]
  exact (claim_C7_decoupling _).2.2.2.2 (by norm_num)
    (by rw [hhr1]; norm_num) (by rw [hhr2]; norm_num)
    (by rw [hef1]; norm_num) rfl

/-! ## Session load (TRIMP)

`ℝ` is used because of `exp`.  Missing Avg HR / Duration cells
(`pd.to_numeric(..., errors='coerce')` producing NaN) are modelled as
`none`.  The row-wise path (`analysis.py`) guards on NaN and on
`duration == 0 or avg_hr == 0`; the vectorized path
(`history_backfill.py`) instead fills missing values with 0 and relies on
clipping `hrr` to `[0, 1]`.  Neither path guards `max_hr = rest_hr`: the
operands are numpy scalars, so the division by zero raises no exception
but produces `inf`, `-inf` or `nan`, and the subsequent clamp/clip and
`fillna` determine the result; `hrrRow` and `hrrVec` encode those IEEE
outcomes case by case. -/

/-- Clipped heart-rate reserve of the row-wise path, including the
numpy behaviour at a zero denominator: `(a - rs)/0` is `inf` (positive
numerator), `-inf` (negative) or `nan` (zero), and Python's
`max(0, min(1, hrr))` maps both `inf` and `nan` to 1 (since `nan < 1`
is false) and `-inf` to 0 — so at `max_hr = rest_hr` the reserve is 1
when `rest_hr ≤ avg_hr` and 0 otherwise. -/
noncomputable def hrrRow (a mx rs : ℝ) : ℝ :=
  if mx = rs then (if rs ≤ a then 1 else 0)
  else clamp01 ((a - rs) / (mx - rs))

/-- The shared TRIMP formula
`round(duration * hrr * (0.64 * exp(1.92 * hrr)), 1)`. -/
noncomputable def trimpFormula (t h : ℝ) : ℝ :=
  pyRound1 (t * h * (0.64 * Real.exp (1.92 * h)))

/-- Row-wise per-record TRIMP from `analysis.py`. -/
noncomputable def trimp_row (avg_hr duration : Option ℝ) (max_hr rest_hr : ℝ) : ℝ :=
  match avg_hr, duration with
  | some a, some t =>
    if t = 0 ∨ a = 0 then 0 else trimpFormula t (hrrRow a max_hr rest_hr)
  | _, _ => 0

/-- Clipped heart-rate reserve of the vectorized path: the pandas
division gives `inf`/`-inf`/`NaN` at a zero denominator; `clip(0, 1)`
maps `inf` to 1 and `-inf` to 0 but keeps `NaN` (modelled `none`),
which propagates through the formula and is turned into a 0 entry by
the later `fillna(0)`. -/
noncomputable def hrrVec (a mx rs : ℝ) : Option ℝ :=
  if mx = rs then (if rs < a then some 1 else if a = rs then none else some 0)
  else some (clamp01 ((a - rs) / (mx - rs)))

/-- Vectorized TRIMP from `history_backfill.py`: `fillna(0)` on the
input columns, the unguarded clipped formula, then `fillna(0).round(1)`
on the result. -/
noncomputable def trimp_vec (avg_hr duration : Option ℝ) (max_hr rest_hr : ℝ) : ℝ :=
  match hrrVec (avg_hr.getD 0) max_hr rest_hr with
  | none => 0
  | some h => trimpFormula (duration.getD 0) h

theorem clamp01_zero (α : Type) [LinearOrderedField α] : clamp01 (0 : α) = 0 := by
  unfold clamp01
  rw [min_eq_right (by norm_num), max_eq_left (le_refl 0)]

theorem clamp01_of_nonpos {α : Type} [LinearOrderedField α] (x : α) (h : x ≤ 0) :
    clamp01 x = 0 := by
  unfold clamp01
  rw [min_eq_right (by linarith), max_eq_left h]

theorem trimpFormula_hrr_zero (t : ℝ) : trimpFormula t 0 = 0 := by
  unfold trimpFormula
  rw [mul_zero, zero_mul, pyRound1_zero]

theorem trimpFormula_duration_zero (h : ℝ) : trimpFormula 0 h = 0 := by
  unfold trimpFormula
  rw [zero_mul, zero_mul, pyRound1_zero]

theorem hrrRow_of_ne (a mx rs : ℝ) (h : mx ≠ rs) :
    hrrRow a mx rs = clamp01 ((a - rs) / (mx - rs)) := by
  unfold hrrRow
  rw [if_neg h]

theorem hrrVec_of_ne (a mx rs : ℝ) (h : mx ≠ rs) :
    hrrVec a mx rs = some (clamp01 ((a - rs) / (mx - rs))) := by
  unfold hrrVec
  rw [if_neg h]

theorem pyRoundInt_neg {α : Type} [LinearOrderedField α] [FloorRing α]
    (x : α) (h : x ≤ -(3/2)) : pyRoundInt x < 0 := by
  have hm : ⌊x⌋ ≤ ⌊(-(3/2) : α)⌋ := Int.floor_le_floor h
  have h32 : ⌊(-(3/2) : α)⌋ = -2 := by
    rw [Int.floor_eq_iff]
    constructor <;> norm_num
  have hu := (pyRoundInt_le α x).2
  omega

theorem pyRoundInt_pos {α : Type} [LinearOrderedField α] [FloorRing α]
    (x : α) (h : (3/2 : α) ≤ x) : 0 < pyRoundInt x := by
  have hm : ⌊((3/2) : α)⌋ ≤ ⌊x⌋ := Int.floor_le_floor h
  have h32 : ⌊((3/2) : α)⌋ = 1 := by
    rw [Int.floor_eq_iff]
    constructor <;> norm_num
  have hl := (pyRoundInt_le α x).1
  omega

theorem pyRound1_neg {α : Type} [LinearOrderedField α] [FloorRing α]
    (x : α) (h : 10 * x ≤ -(3/2)) : pyRound1 x < 0 := by
  unfold pyRound1
  apply div_neg_of_neg_of_pos _ (by norm_num)
  exact_mod_cast pyRoundInt_neg (10 * x) h

theorem pyRound1_pos {α : Type} [LinearOrderedField α] [FloorRing α]
    (x : α) (h : (3/2 : α) ≤ 10 * x) : 0 < pyRound1 x := by
  unfold pyRound1
  apply div_pos _ (by norm_num)
  exact_mod_cast pyRoundInt_pos (10 * x) h

/-- C1 (amended): the row-wise TRIMP returns 0 when avg HR is missing
or 0 or when duration is missing or 0, and exactly 0 there.  The source
guards `duration == 0`, not `duration ≤ 0` (see the counterexample),
and does NOT guard `max_hr = rest_hr`: the numpy division yields `inf`
(or `nan`), the clamp turns it into a full reserve of 1, and the run is
scored nonzero whenever duration and avg HR are nonzero with
`rest_hr ≤ avg_hr`. -/
theorem claim_C1_trimp_guards :
    (∀ (avg_hr duration : Option ℝ) (max_hr rest_hr : ℝ),
      avg_hr = none ∨ avg_hr = some 0 ∨ duration = none ∨ duration = some 0 →
      trimp_row avg_hr duration max_hr rest_hr = 0) ∧
    (∀ t a rs : ℝ, t ≠ 0 → a ≠ 0 → rs ≤ a →
      trimp_row (some a) (some t) rs rs =
        pyRound1 (t * (0.64 * Real.exp 1.92))) := by
  constructor
  · intro avg_hr duration max_hr rest_hr h
    cases avg_hr with
    | none => rfl
    | some a =>
      cases duration with
      | none => rfl
      | some t =>
        simp only [trimp_row]
        rcases h with h | h | h | h
        · exact absurd h (by simp)
        · rw [Option.some_inj] at h
          rw [if_pos (Or.inr h)]
        · exact absurd h (by simp)
        · rw [Option.some_inj] at h
          rw [if_pos (Or.inl h)]
  · intro t a rs ht ha hra
    simp only [trimp_row]
    rw [if_neg (by push_neg; exact ⟨ht, ha⟩)]
    unfold trimpFormula hrrRow
    rw [if_pos rfl, if_pos hra, mul_one, mul_one]

/-- C1 witness: a record with a missing average heart rate scores 0. -/
theorem claim_C1_witness : trimp_row none (some 60) 185 55 = 0 :=
  claim_C1_trimp_guards.1 none (some 60) 185 55 (Or.inl rfl)

/-- C1 counterexample: the guard tests `duration == 0`, not
`duration ≤ 0`, so duration −10 min at avg HR 150 (max 185, rest 55)
produces a strictly negative score; and `max_hr = rest_hr = 55` at
avg HR 150 for 60 min is scored strictly positive (≈ 261.9) instead of
the claimed 0, because the numpy division by zero is `inf`, not an
exception, and the clamp turns it into a full reserve. -/
theorem claim_C1_counterexample :
    trimp_row (some 150) (some (-10)) 185 55 < 0 ∧
    0 < trimp_row (some 150) (some 60) 55 55 := by
  constructor
  · simp only [trimp_row]
    rw [if_neg (by norm_num)]
    rw [hrrRow_of_ne 150 185 55 (by norm_num)]
    unfold trimpFormula
    have hc : clamp01 (((150 : ℝ) - 55) / (185 - 55)) = 19 / 26 := by
      unfold clamp01
      rw [show ((150 : ℝ) - 55) / (185 - 55) = 19 / 26 by norm_num]
      rw [min_eq_right (by norm_num), max_eq_right (by norm_num)]
    rw [hc]
    apply pyRound1_neg
    have hexp : (1 : ℝ) ≤ Real.exp (1.92 * (19 / 26)) := by
      have h := Real.add_one_le_exp (1.92 * (19 / 26) : ℝ)
      nlinarith
    nlinarith [Real.exp_pos ((1.92 : ℝ) * (19 / 26))]
  · simp only [trimp_row]
    rw [if_neg (by norm_num)]
    unfold trimpFormula hrrRow
    rw [if_pos rfl, if_pos (by norm_num : (55 : ℝ) ≤ 150), mul_one, mul_one]
    apply pyRound1_pos
    have hexp := Real.add_one_le_exp (1.92 : ℝ)
    nlinarith

/-- C10 (amended): with a resolved profile satisfying
`0 ≤ rest_hr < max_hr`, the row-wise TRIMP and the vectorized TRIMP
agree on every record whose fields are numeric or missing.  (For
`max_hr ≠ rest_hr` alone the claim fails, see the counterexample.) -/
theorem claim_C10_row_eq_vec (avg_hr duration : Option ℝ) (max_hr rest_hr : ℝ)
    (h0 : 0 ≤ rest_hr) (h1 : rest_hr < max_hr) :
    trimp_row avg_hr duration max_hr rest_hr =
      trimp_vec avg_hr duration max_hr rest_hr := by
  have hne : max_hr ≠ rest_hr := ne_of_gt h1
  have havg0 : clamp01 (((0 : ℝ) - rest_hr) / (max_hr - rest_hr)) = 0 := by
    apply clamp01_of_nonpos
    apply div_nonpos_of_nonpos_of_nonneg <;> linarith
  cases avg_hr with
  | none =>
    show (0 : ℝ) = trimp_vec none duration max_hr rest_hr
    unfold trimp_vec
    rw [show Option.getD (none : Option ℝ) 0 = 0 from rfl,
      hrrVec_of_ne 0 max_hr rest_hr hne, havg0]
    exact (trimpFormula_hrr_zero _).symm
  | some a =>
    cases duration with
    | none =>
      show (0 : ℝ) = trimp_vec (some a) none max_hr rest_hr
      unfold trimp_vec
      rw [show Option.getD (some a) 0 = a from rfl,
        hrrVec_of_ne a max_hr rest_hr hne]
      exact (trimpFormula_duration_zero _).symm
    | some t =>
      show (if t = 0 ∨ a = 0 then (0 : ℝ)
          else trimpFormula t (hrrRow a max_hr rest_hr)) =
        trimp_vec (some a) (some t) max_hr rest_hr
      unfold trimp_vec
      rw [show Option.getD (some a) 0 = a from rfl,
        show Option.getD (some t) 0 = t from rfl,
        hrrVec_of_ne a max_hr rest_hr hne, hrrRow_of_ne a max_hr rest_hr hne]
      by_cases hz : t = 0 ∨ a = 0
      · rw [if_pos hz]
        rcases hz with rfl | rfl
        · exact (trimpFormula_duration_zero _).symm
        · rw [havg0]
          exact (trimpFormula_hrr_zero _).symm
      · rw [if_neg hz]

/-- C10 witness: both TRIMP paths agree on a fully valid record. -/
theorem claim_C10_witness :
    trimp_row (some 150) (some 60) 185 55 = trimp_vec (some 150) (some 60) 185 55 :=
  claim_C10_row_eq_vec (some 150) (some 60) 185 55 (by norm_num) (by norm_num)

/-- C10 counterexample: with `max_hr = 50 ≠ rest_hr = 100` and
avg HR present but 0, the row-wise guard returns 0 while the vectorized
formula clips `(0−100)/(50−100) = 2` to 1 and scores the run. -/
theorem claim_C10_counterexample :
    trimp_row (some 0) (some 10) 50 100 ≠ trimp_vec (some 0) (some 10) 50 100 := by
  have hrow : trimp_row (some 0) (some 10) 50 100 = 0 := by
    simp [trimp_row]
  have hvec : 0 < trimp_vec (some 0) (some 10) 50 100 := by
    have hv : trimp_vec (some 0) (some 10) 50 100 = trimpFormula 10 1 := by
      unfold trimp_vec
      rw [show Option.getD (some (0 : ℝ)) 0 = 0 from rfl,
        hrrVec_of_ne 0 50 100 (by norm_num)]
      rw [show clamp01 (((0 : ℝ) - 100) / (50 - 100)) = 1 from by
        unfold clamp01
        rw [show ((0 : ℝ) - 100) / (50 - 100) = 2 by norm_num]
        rw [min_eq_left (by norm_num), max_eq_right (by norm_num)]]
      rfl
    rw [hv]
    unfold trimpFormula
    apply pyRound1_pos
    have hexp := Real.add_one_le_exp ((1.92 : ℝ) * 1)
    nlinarith
  rw [hrow]
  exact (ne_of_lt hvec)

/-! ### Numeric bounds for the concrete TRIMP scenario -/

theorem exp_131_325_sum :
    (∑ i ∈ Finset.range 7, ((131 : ℝ) / 325) ^ i / (Nat.factorial i : ℝ)) =
      1269657671171382481 / 848462519531250000 := by
  simp only [Finset.sum_range_succ, Finset.sum_range_zero, Nat.factorial]
  norm_num

theorem exp_131_325_bounds :
    1269657671171382481 / 848462519531250000 - 1/1000000 ≤ Real.exp ((131 : ℝ) / 325) ∧
    Real.exp ((131 : ℝ) / 325) ≤ 1269657671171382481 / 848462519531250000 + 1/1000000 := by
  have hx : |(131 : ℝ) / 325| ≤ 1 := by
    rw [abs_of_pos (by norm_num)]
    norm_num
  have hb := @Real.exp_bound ((131 : ℝ) / 325) hx 7 (by norm_num)
  rw [exp_131_325_sum] at hb
  have herr : |(131 : ℝ) / 325| ^ 7 * ((Nat.succ 7 : ℝ) / ((Nat.factorial 7 : ℝ) * 7)) ≤
      1/1000000 := by
    rw [abs_of_pos (by norm_num)]
    norm_num [Nat.factorial]
  have hab := abs_le.mp hb
  constructor
  · linarith [hab.1, herr]
  · linarith [hab.2, herr]

theorem exp_456_325_bounds :
    (4.066 : ℝ) ≤ Real.exp ((456 : ℝ) / 325) ∧
      Real.exp ((456 : ℝ) / 325) ≤ 4.06775 := by
  have hsplit : Real.exp ((456 : ℝ) / 325) = Real.exp 1 * Real.exp ((131 : ℝ) / 325) := by
    rw [← Real.exp_add]
    norm_num
  have h1g := Real.exp_one_gt_d9
  have h1l := Real.exp_one_lt_d9
  have hx := exp_131_325_bounds
  have hxpos : (0 : ℝ) < Real.exp ((131 : ℝ) / 325) := Real.exp_pos _
  constructor
  · rw [hsplit]
    have hlo : (2.7182818283 : ℝ) *
        (1269657671171382481 / 848462519531250000 - 1/1000000) ≤
        Real.exp 1 * Real.exp ((131 : ℝ) / 325) := by
      apply mul_le_mul h1g.le hx.1 (by norm_num) (Real.exp_pos 1).le
    calc (4.066 : ℝ) ≤ (2.7182818283 : ℝ) *
          (1269657671171382481 / 848462519531250000 - 1/1000000) := by norm_num
      _ ≤ _ := hlo
  · rw [hsplit]
    have hhi : Real.exp 1 * Real.exp ((131 : ℝ) / 325) ≤
        (2.7182818286 : ℝ) *
          (1269657671171382481 / 848462519531250000 + 1/1000000) := by
      apply mul_le_mul h1l.le hx.2 hxpos.le (by norm_num)
    calc Real.exp 1 * Real.exp ((131 : ℝ) / 325) ≤ (2.7182818286 : ℝ) *
          (1269657671171382481 / 848462519531250000 + 1/1000000) := hhi
      _ ≤ 4.06775 := by norm_num

/-- C4: for valid inputs the row-wise TRIMP is exactly the clamped
Banister formula rounded to one decimal, and the concrete scenario
`trimp(60, 150, 185, 55)` evaluates to 114.1. -/
theorem claim_C4_trimp_formula :
    (∀ t a m r : ℝ, 0 < t → 0 < a → r < m →
      trimp_row (some a) (some t) m r =
        pyRound1 (t * clamp01 ((a - r) / (m - r)) *
          (0.64 * Real.exp (1.92 * clamp01 ((a - r) / (m - r)))))) ∧
    trimp_row (some 150) (some 60) 185 55 = 114.1 := by
  constructor
  · intro t a m r ht ha hrm
    simp only [trimp_row]
    rw [if_neg (by push_neg; constructor <;> intro h <;> [exact absurd h (ne_of_gt ht); exact absurd h (ne_of_gt ha)])]
    rw [hrrRow_of_ne a m r (ne_of_gt hrm)]
    rfl
  · simp only [trimp_row]
    rw [if_neg (by norm_num)]
    rw [hrrRow_of_ne 150 185 55 (by norm_num)]
    unfold trimpFormula
    have hc : clamp01 (((150 : ℝ) - 55) / (185 - 55)) = 19 / 26 := by
      unfold clamp01
      rw [show ((150 : ℝ) - 55) / (185 - 55) = 19 / 26 by norm_num]
      rw [min_eq_right (by norm_num), max_eq_right (by norm_num)]
    rw [hc, show (1.92 : ℝ) * (19 / 26) = 456 / 325 by norm_num]
    have hE := exp_456_325_bounds
    rw [pyRound1_eq_of _ 1141 (by nlinarith [hE.1, hE.2]) (by nlinarith [hE.1, hE.2])]
    norm_num

/-- C4 witness: the formula clause applied at the concrete scenario. -/
theorem claim_C4_witness :
    trimp_row (some 150) (some 60) 185 55 =
      pyRound1 (60 * clamp01 (((150 : ℝ) - 55) / (185 - 55)) *
        (0.64 * Real.exp (1.92 * clamp01 (((150 : ℝ) - 55) / (185 - 55))))) :=
  claim_C4_trimp_formula.1 60 150 185 55 (by norm_num) (by norm_num) (by norm_num)

/-! ## Performance estimator (`calculate_run_vdot`)

Identical in `analysis.py` and `history_backfill.py`: normalize to a
5 km equivalent via Riegel's power law, convert to speed in m/min, and
apply the quadratic regression, rounding to one decimal. -/

noncomputable def calculate_run_vdot (distance_km duration_min : ℝ) : ℝ :=
  if distance_km < 3 ∨ duration_min ≤ 0 then 0
  else
    pyRound1 (-4.6 + 0.182258 * (5000 / (duration_min * (5 / distance_km) ^ (1.06 : ℝ))) +
      0.000104 * (5000 / (duration_min * (5 / distance_km) ^ (1.06 : ℝ))) ^ (2 : ℕ))

theorem rpow_53_50_bounds :
    (4169/2000 : ℝ) ≤ (2 : ℝ) ^ ((53 : ℝ)/50) ∧
      (2 : ℝ) ^ ((53 : ℝ)/50) ≤ 4171/2000 := by
  have hP50 : ((2 : ℝ) ^ ((53 : ℝ)/50)) ^ (50 : ℕ) = (2 : ℝ) ^ (53 : ℕ) := by
    rw [← Real.rpow_natCast ((2 : ℝ) ^ ((53 : ℝ)/50)) 50,
      ← Real.rpow_mul (by norm_num : (0:ℝ) ≤ 2)]
    rw [show (53 : ℝ)/50 * ((50 : ℕ) : ℝ) = ((53 : ℕ) : ℝ) by push_cast; ring]
    rw [Real.rpow_natCast]
  constructor
  · apply le_of_pow_le_pow_left (by norm_num : (50 : ℕ) ≠ 0)
      (Real.rpow_nonneg (by norm_num) _)
    rw [hP50]
    norm_num
  · apply le_of_pow_le_pow_left (by norm_num : (50 : ℕ) ≠ 0)
      (by norm_num : (0:ℝ) ≤ 4171/2000)
    rw [hP50]
    norm_num

/-- C5: short or invalid efforts score 0; otherwise the score is the
quadratic regression of the Riegel-normalized 5 km speed rounded to one
decimal; and `sessionScore(10 km, 50 min) = 37.9`. -/
theorem claim_C5_vdot :
    (∀ d t : ℝ, d < 3 ∨ t ≤ 0 → calculate_run_vdot d t = 0) ∧
    (∀ d t : ℝ, 3 ≤ d → 0 < t →
      calculate_run_vdot d t =
        pyRound1 (-4.6 + 0.182258 * (5000 / (t * (5 / d) ^ (1.06 : ℝ))) +
          0.000104 * (5000 / (t * (5 / d) ^ (1.06 : ℝ))) ^ (2 : ℕ))) ∧
    calculate_run_vdot 10 50 = 37.9 := by
  refine ⟨?_, ?_, ?_⟩
  · intro d t h
    unfold calculate_run_vdot
    rw [if_pos h]
  · intro d t hd ht
    unfold calculate_run_vdot
    rw [if_neg (by push_neg; exact ⟨by linarith, ht⟩)]
  · unfold calculate_run_vdot
    rw [if_neg (by norm_num)]
    rw [show (5 : ℝ) / 10 = 2⁻¹ by norm_num, show (1.06 : ℝ) = (53 : ℝ)/50 by norm_num,
      Real.inv_rpow (by norm_num : (0:ℝ) ≤ 2)]
    have hPb := rpow_53_50_bounds
    have hPpos : (0:ℝ) < (2:ℝ) ^ ((53:ℝ)/50) := Real.rpow_pos_of_pos (by norm_num) _
    have hv : (5000 : ℝ) / (50 * ((2:ℝ) ^ ((53:ℝ)/50))⁻¹) =
        100 * (2:ℝ) ^ ((53:ℝ)/50) := by
      rw [div_eq_iff (by positivity)]
      field_simp
      ring
    rw [hv]
    have hP2l : (4169/2000 : ℝ)^(2:ℕ) ≤ ((2:ℝ) ^ ((53:ℝ)/50))^(2:ℕ) :=
      pow_le_pow_left (by norm_num) hPb.1 2
    have hP2u : ((2:ℝ) ^ ((53:ℝ)/50))^(2:ℕ) ≤ (4171/2000 : ℝ)^(2:ℕ) :=
      pow_le_pow_left hPpos.le hPb.2 2
    rw [pyRound1_eq_of _ 379 (by nlinarith [hPb.1, hPb.2, hP2l, hP2u])
      (by nlinarith [hPb.1, hPb.2, hP2l, hP2u])]
    norm_num

/-- C5 witness: the formula clause applied at 10 km in 50 minutes. -/
theorem claim_C5_witness :
    calculate_run_vdot 10 50 =
      pyRound1 (-4.6 + 0.182258 * (5000 / (50 * ((5:ℝ) / 10) ^ (1.06 : ℝ))) +
        0.000104 * (5000 / (50 * ((5:ℝ) / 10) ^ (1.06 : ℝ))) ^ (2 : ℕ)) :=
  claim_C5_vdot.2.1 10 50 (by norm_num) (by norm_num)

/-! ## Weekly aggregation

Calendar dates are natural day numbers with day 0 a Monday (so Sundays
are the days ≡ 6 mod 7).  By aggregation time both scripts have a TRIMP
column on the activity frame, so an aggregation-stage activity carries
its day, distance, pace string and TRIMP.  The VDOT column of the report
rows (computed from ℝ-valued scores) is orthogonal to the claims below
and is not part of the row model. -/

structure Act where
  day : ℕ
  dist : ℚ
  pace : List Char
  trimp : ℚ

/-- First activity day (`df['Date'].min()`); 0 on an empty frame, where
the source would raise. -/
def minDay : List Act → ℕ
  | [] => 0
  | a :: as => as.foldl (fun m b => min m b.day) a.day

/-- Last activity day (`df['Date'].max()`). -/
def maxDay : List Act → ℕ
  | [] => 0
  | a :: as => as.foldl (fun m b => max m b.day) a.day

/-- Summed TRIMP of one calendar day (`resample('D').sum()`). -/
def dayLoad (acts : List Act) (d : ℕ) : ℚ :=
  ((acts.filter (fun a => a.day = d)).map (fun a => a.trimp)).sum

/-- The gap-free daily load series from the first to the last activity
day inclusive. -/
def dailySeries (acts : List Act) : List ℚ :=
  (List.range (maxDay acts + 1 - minDay acts)).map
    (fun i => dayLoad acts (minDay acts + i))

/-- CTL series: span-42 EWMA over the daily series. -/
def ctlSeries (acts : List Act) : List ℚ := ewmaScan (alphaOf 42) (dailySeries acts)

/-- ATL series: span-7 EWMA over the daily series. -/
def atlSeries (acts : List Act) : List ℚ := ewmaScan (alphaOf 7) (dailySeries acts)

/-- Last element of a series as `.iloc[-1]` reads it (0 on empty, where the source would raise). -/
def lastD (l : List ℚ) : ℚ := l.getD (l.length - 1) 0

/-- CTL value on day `d` of the daily axis. -/
def ctlAt (acts : List Act) (d : ℕ) : ℚ :=
  (ctlSeries acts).getD (d - minDay acts) 0

/-- ATL value on day `d`. -/
def atlAt (acts : List Act) (d : ℕ) : ℚ :=
  (atlSeries acts).getD (d - minDay acts) 0

/-- TSB (form) on day `d`. -/
def tsbAt (acts : List Act) (d : ℕ) : ℚ := ctlAt acts d - atlAt acts d

/-- The Sunday ending the week of day `d` (`resample('W-SUN')` label). -/
def weekEndOf (d : ℕ) : ℕ := d + (6 - d % 7)

/-- All weekly bin labels produced by `resample('W-SUN')`: consecutive
Sundays from the first activity's week to the last activity's week. -/
def weekEnds (acts : List Act) : List ℕ :=
  (List.range ((weekEndOf (maxDay acts) - weekEndOf (minDay acts)) / 7 + 1)).map
    (fun k => weekEndOf (minDay acts) + 7 * k)

/-- The activities binned into the week ending on Sunday `w`. -/
def weekActs (acts : List Act) (w : ℕ) : List Act :=
  acts.filter (fun a => weekEndOf a.day = w)

/-- One pace string's contribution to `avg_pace_calc`: parsed only when
the string contains an apostrophe and both integer fields parse. -/
def paceSecs? (cs : List Char) : Option ℤ :=
  if '\'' ∈ cs then
    match splitOnChar '\'' cs with
    | p0 :: p1 :: _ =>
      match pyInt? p0, pyInt? (p1.filter (fun c => c ≠ '"')) with
      | some m, some s => some (m * 60 + s)
      | _, _ => none
    | _ => none
  else none

/-- Function `avg_pace_calc` from `history_backfill.py`: mean seconds over the
parseable pace strings, 0 when none parse. -/
def avg_pace_calc (paces : List (List Char)) : ℚ :=
  let vals := paces.filterMap paceSecs?
  if vals.length = 0 then 0 else ((vals.sum : ℤ) : ℚ) / (vals.length : ℚ)

/-- The status label: 恢复 (recovered) above 10, 疲劳 (fatigued) at or
below −10, 适中 (moderate) in between. -/
def statusOf (tsb : ℚ) : String :=
  if tsb > 10 then "恢复" else if tsb > -10 then "适中" else "疲劳"

structure BFRow where
  weekStart : ℕ
  weekEnd : ℕ
  dist : ℚ
  runs : ℕ
  avgPace : List Char
  load : ℤ
  fitness : ℚ
  form : ℚ
  status : String

/-- One backfill report row for the week ending `w`: sums over the
week's activities, pace via `avg_pace_calc`, and CTL/TSB sampled by
`resample('W-SUN').last()`, i.e. at the last daily-axis day of the week,
`min (maxDay acts) w`. -/
def mkBFRow (acts : List Act) (w : ℕ) : BFRow :=
  { weekStart := w - 6
    weekEnd := w
    dist := pyRound2 ((weekActs acts w).map (fun a => a.dist)).sum
    runs := (weekActs acts w).length
    avgPace := pace_fmt (avg_pace_calc ((weekActs acts w).map (fun a => a.pace)))
    load := pyRoundInt ((weekActs acts w).map (fun a => a.trimp)).sum
    fitness := pyRound1 (ctlAt acts (min (maxDay acts) w))
    form := pyRound1 (tsbAt acts (min (maxDay acts) w))
    status := statusOf (tsbAt acts (min (maxDay acts) w)) }

/-- The backfill aggregator: one candidate row per weekly bin, skipping
weeks with zero distance whose CTL has not yet reached 1. -/
def backfillRows (acts : List Act) : List BFRow :=
  (weekEnds acts).filterMap (fun w =>
    if ((weekActs acts w).map (fun a => a.dist)).sum = 0 ∧
        ctlAt acts (min (maxDay acts) w) < 1 then none
    else some (mkBFRow acts w))

structure AnRow where
  weekStart : ℕ
  weekEnd : ℕ
  dist : ℚ
  runs : ℕ
  avgPace : List Char
  load : ℤ
  fitness : ℚ
  form : ℚ
  status : String

/-- The incremental weekly report from `analysis.py`, run on day
`today`: the reported week is last Monday (inclusive) to this Monday
(exclusive), but CTL/ATL are taken as `.iloc[-1]` of the EWMA over the
full daily series, i.e. at the last day present in the data. -/
def analysisReport (acts : List Act) (today : ℕ) : AnRow :=
  let thisMon := today - today % 7
  let lastMon := thisMon - 7
  let wk := acts.filter (fun a => lastMon ≤ a.day ∧ a.day < thisMon)
  let avgSec : ℚ :=
    if wk.length = 0 then 0
    else (((wk.map (fun a => parse_pace a.pace)).sum : ℤ) : ℚ) / (wk.length : ℚ)
  { weekStart := lastMon
    weekEnd := thisMon
    dist := pyRound2 (wk.map (fun a => a.dist)).sum
    runs := wk.length
    avgPace := pace_fmt avgSec
    load := pyRoundInt (wk.map (fun a => a.trimp)).sum
    fitness := pyRound1 (lastD (ctlSeries acts))
    form := pyRound1 (lastD (ctlSeries acts) - lastD (atlSeries acts))
    status := statusOf (lastD (ctlSeries acts) - lastD (atlSeries acts)) }

/-- The daily series truncated at day `d` (all days ≤ `d`; the series
itself never extends past `maxDay`). -/
def truncSeries (acts : List Act) (d : ℕ) : List ℚ :=
  (List.range (min (maxDay acts) d + 1 - minDay acts)).map
    (fun i => dayLoad acts (minDay acts + i))

/-- Fitness as the spec's §4.3 filter over the truncated series, at the
truncation point. -/
def fitnessTrunc (acts : List Act) (d : ℕ) : ℚ :=
  pyRound1 (lastD (ewmaScan (alphaOf 42) (truncSeries acts d)))

/-- Form as the spec's §4.3 filter over the truncated series. -/
def formTrunc (acts : List Act) (d : ℕ) : ℚ :=
  pyRound1 (lastD (ewmaScan (alphaOf 42) (truncSeries acts d)) -
    lastD (ewmaScan (alphaOf 7) (truncSeries acts d)))

/-! ### Truncation lemmas for the weekly snapshots -/

theorem ewmaScan_getD_append (a : ℚ) (xs ys : List ℚ) (i : ℕ) (hi : i < xs.length) :
    (ewmaScan a (xs ++ ys)).getD i 0 = (ewmaScan a xs).getD i 0 := by
  rw [List.getD_eq_getElem?_getD, List.getD_eq_getElem?_getD,
    ewmaScan_getElem?_append a xs ys i hi]

theorem dailySeries_split (acts : List Act) (d : ℕ) :
    dailySeries acts = truncSeries acts d ++
      (List.range ((maxDay acts + 1 - minDay acts) -
          (min (maxDay acts) d + 1 - minDay acts))).map
        (fun i => dayLoad acts (minDay acts +
          ((min (maxDay acts) d + 1 - minDay acts) + i))) := by
  unfold dailySeries truncSeries
  nth_rewrite 1 [show maxDay acts + 1 - minDay acts =
      (min (maxDay acts) d + 1 - minDay acts) +
        ((maxDay acts + 1 - minDay acts) - (min (maxDay acts) d + 1 - minDay acts)) by
    have := min_le_left (maxDay acts) d
    omega]
  rw [List.range_add, List.map_append, List.map_map]
  rfl

theorem ewma_at_trunc (a : ℚ) (acts : List Act) (d : ℕ)
    (h1 : minDay acts ≤ min (maxDay acts) d) :
    (ewmaScan a (dailySeries acts)).getD (min (maxDay acts) d - minDay acts) 0 =
      lastD (ewmaScan a (truncSeries acts d)) := by
  have hlen : (truncSeries acts d).length = min (maxDay acts) d + 1 - minDay acts := by
    unfold truncSeries
    rw [List.length_map, List.length_range]
  rw [dailySeries_split acts d]
  rw [ewmaScan_getD_append _ _ _ _ (by rw [hlen]; omega)]
  unfold lastD
  congr 1
  rw [ewmaScan_length, hlen]
  omega

theorem foldl_min_le (as : List Act) : ∀ m : ℕ, as.foldl (fun m b => min m b.day) m ≤ m := by
  induction as with
  | nil => intro m; exact le_refl m
  | cons a as ih =>
    intro m
    exact le_trans (ih (min m a.day)) (min_le_left _ _)

theorem le_foldl_max (as : List Act) : ∀ m : ℕ, m ≤ as.foldl (fun m b => max m b.day) m := by
  induction as with
  | nil => intro m; exact le_refl m
  | cons a as ih =>
    intro m
    exact le_trans (le_max_left _ _) (ih (max m a.day))

theorem minDay_le_maxDay (acts : List Act) : minDay acts ≤ maxDay acts := by
  cases acts with
  | nil => exact le_refl 0
  | cons a as => exact le_trans (foldl_min_le as a.day) (le_foldl_max as a.day)

theorem mem_weekEnds_ge (acts : List Act) (w : ℕ) (hw : w ∈ weekEnds acts) :
    weekEndOf (minDay acts) ≤ w := by
  unfold weekEnds at hw
  rw [List.mem_map] at hw
  obtain ⟨k, _, rfl⟩ := hw
  omega

theorem min_weekEnd_ge_minDay (acts : List Act) (w : ℕ) (hw : w ∈ weekEnds acts) :
    minDay acts ≤ min (maxDay acts) w := by
  have h1 := minDay_le_maxDay acts
  have h2 := mem_weekEnds_ge acts w hw
  have h3 : minDay acts ≤ weekEndOf (minDay acts) := Nat.le_add_right _ _
  omega

theorem truncSeries_at_max (acts : List Act) :
    truncSeries acts (maxDay acts) = dailySeries acts := by
  unfold truncSeries dailySeries
  rw [min_self]

/-- C2 (amended): every backfill row carries Fitness and Form equal to
the §4.3 filter applied to the daily series truncated at that row's
week-end; the incremental report instead carries the filter values at
the last day present in the data (= the series truncated at `maxDay`),
whatever the reported week is. -/
theorem claim_C2_weekend_truncation (acts : List Act) :
    (∀ r ∈ backfillRows acts, r.fitness = fitnessTrunc acts r.weekEnd ∧
      r.form = formTrunc acts r.weekEnd) ∧
    (∀ today : ℕ,
      (analysisReport acts today).fitness = fitnessTrunc acts (maxDay acts) ∧
      (analysisReport acts today).form = formTrunc acts (maxDay acts)) := by
  constructor
  · intro r hr
    unfold backfillRows at hr
    rw [List.mem_filterMap] at hr
    obtain ⟨w, hw, hfw⟩ := hr
    by_cases hcond : ((weekActs acts w).map (fun a => a.dist)).sum = 0 ∧
        ctlAt acts (min (maxDay acts) w) < 1
    · rw [if_pos hcond] at hfw
      exact absurd hfw (by simp)
    · rw [if_neg hcond, Option.some_inj] at hfw
      subst hfw
      have hmin := min_weekEnd_ge_minDay acts w hw
      constructor
      · show pyRound1 (ctlAt acts (min (maxDay acts) w)) = fitnessTrunc acts w
        unfold fitnessTrunc ctlAt ctlSeries
        exact congrArg pyRound1 (ewma_at_trunc (alphaOf 42) acts w hmin)
      · show pyRound1 (tsbAt acts (min (maxDay acts) w)) = formTrunc acts w
        unfold formTrunc tsbAt ctlAt atlAt ctlSeries atlSeries
        rw [ewma_at_trunc (alphaOf 42) acts w hmin,
          ewma_at_trunc (alphaOf 7) acts w hmin]
  · intro today
    constructor
    · show pyRound1 (lastD (ctlSeries acts)) = fitnessTrunc acts (maxDay acts)
      unfold fitnessTrunc ctlSeries
      rw [truncSeries_at_max]
    · show pyRound1 (lastD (ctlSeries acts) - lastD (atlSeries acts)) =
        formTrunc acts (maxDay acts)
      unfold formTrunc ctlSeries atlSeries
      rw [truncSeries_at_max]

/-! ### Concrete aggregation scenarios -/

/-- Two 100-TRIMP runs: Monday day 0 and Monday day 7 (the morning the
incremental report for week days 0–6 is generated). -/
def actsA : List Act :=
  [⟨0, 5, ['5', '\'', '0', '0', '"'], 100⟩, ⟨7, 5, ['5', '\'', '0', '0', '"'], 100⟩]

theorem actsA_daily : dailySeries actsA = [100, 0, 0, 0, 0, 0, 0, 100] := by
  unfold dailySeries
  rw [show minDay actsA = 0 from by decide, show maxDay actsA = 7 from by decide]
  rw [show List.range (7 + 1 - 0) = [0, 1, 2, 3, 4, 5, 6, 7] from by decide]
  simp only [List.map_cons, List.map_nil]
  norm_num [dayLoad, actsA]

theorem actsA_trunc6 : truncSeries actsA 6 = [100, 0, 0, 0, 0, 0, 0] := by
  unfold truncSeries
  rw [show minDay actsA = 0 from by decide, show maxDay actsA = 7 from by decide]
  rw [show List.range (min 7 6 + 1 - 0) = [0, 1, 2, 3, 4, 5, 6] from by decide]
  simp only [List.map_cons, List.map_nil]
  norm_num [dayLoad, actsA]

/-- C2 counterexample: running the incremental aggregator on Monday
day 7 reports the week days 0–6 (week-end Sunday day 6), but its
Fitness is the filter value at day 7 (the Monday run is included):
76.3 instead of the claimed value 75.1 at the week-end. -/
theorem claim_C2_counterexample :
    (analysisReport actsA 7).weekStart = 0 ∧
    (analysisReport actsA 7).weekEnd = 7 ∧
    (analysisReport actsA 7).fitness ≠ fitnessTrunc actsA 6 := by
  refine ⟨rfl, rfl, ?_⟩
  have hfit : (analysisReport actsA 7).fitness = pyRound1 (lastD (ctlSeries actsA)) := rfl
  have h1 : lastD (ctlSeries actsA) = 20739699997900 / 271818611107 := by
    unfold ctlSeries alphaOf
    rw [actsA_daily]
    norm_num [ewmaScan, ewmaStep, List.scanl, lastD]
  have h2 : lastD (ewmaScan (alphaOf 42) (truncSeries actsA 6)) =
      475010424100 / 6321363049 := by
    rw [actsA_trunc6]
    unfold alphaOf
    norm_num [ewmaScan, ewmaStep, List.scanl, lastD]
  rw [hfit, h1]
  unfold fitnessTrunc
  rw [h2]
  rw [pyRound1_eq_of _ 763 (by norm_num) (by norm_num),
    pyRound1_eq_of _ 751 (by norm_num) (by norm_num)]
  norm_num

/-- C2 witness: the incremental clause of the amended theorem at the
concrete scenario. -/
theorem claim_C2_witness :
    (analysisReport actsA 7).fitness = fitnessTrunc actsA (maxDay actsA) :=
  ((claim_C2_weekend_truncation actsA).2 7).1

/-- C9 (amended): a calendar week with zero runs yields a backfill row
with `avg_pace = "-"`, `weekly_load = 0`, and status/form from the
carried-forward TSB, PROVIDED its end-of-week CTL is at least 1 (the
backfill skips zero-distance weeks with CTL < 1); and the incremental
aggregator always reports its target week with these sentinel values
when that week has no runs. -/
theorem claim_C9_zero_run_week (acts : List Act) (w : ℕ)
    (hw : w ∈ weekEnds acts) (hz : weekActs acts w = [])
    (hctl : 1 ≤ ctlAt acts (min (maxDay acts) w)) :
    (∃ r ∈ backfillRows acts, r.weekEnd = w ∧ r.runs = 0 ∧ r.dist = 0 ∧
      r.avgPace = ['-'] ∧ r.load = 0 ∧
      r.form = pyRound1 (tsbAt acts (min (maxDay acts) w)) ∧
      r.status = statusOf (tsbAt acts (min (maxDay acts) w))) ∧
    (∀ acts2 : List Act, ∀ today : ℕ,
      acts2.filter (fun a => today - today % 7 - 7 ≤ a.day ∧
        a.day < today - today % 7) = [] →
      (analysisReport acts2 today).runs = 0 ∧
      (analysisReport acts2 today).avgPace = ['-'] ∧
      (analysisReport acts2 today).load = 0 ∧
      (analysisReport acts2 today).status =
        statusOf (lastD (ctlSeries acts2) - lastD (atlSeries acts2))) := by
  constructor
  · refine ⟨mkBFRow acts w, ?_, rfl, ?_, ?_, ?_, ?_, rfl, rfl⟩
    · unfold backfillRows
      rw [List.mem_filterMap]
      refine ⟨w, hw, ?_⟩
      rw [if_neg ?_]
      intro hcond
      exact absurd hcond.2 (not_lt.mpr hctl)
    · show (weekActs acts w).length = 0
      rw [hz]
      rfl
    · show pyRound2 ((weekActs acts w).map (fun a => a.dist)).sum = 0
      rw [hz]
      exact pyRound2_zero ℚ
    · show pace_fmt (avg_pace_calc ((weekActs acts w).map (fun a => a.pace))) = ['-']
      rw [hz]
      show pace_fmt (avg_pace_calc []) = ['-']
      rw [show avg_pace_calc [] = 0 from rfl]
      unfold pace_fmt
      rw [if_neg (by norm_num)]
    · show pyRoundInt ((weekActs acts w).map (fun a => a.trimp)).sum = 0
      rw [hz]
      exact pyRoundInt_zero ℚ
  · intro acts2 today hfil
    unfold analysisReport
    dsimp only
    rw [hfil]
    refine ⟨rfl, ?_, ?_, rfl⟩
    · simp [pace_fmt]
    · show pyRoundInt (([] : List Act).map (fun a => a.trimp)).sum = 0
      exact pyRoundInt_zero ℚ

/-- A 1-TRIMP run on day 0 and a 50-TRIMP run on day 20: the week
ending day 13 has zero runs and CTL < 1 at its end. -/
def actsB : List Act :=
  [⟨0, 5, ['5', '\'', '0', '0', '"'], 1⟩, ⟨20, 5, ['5', '\'', '0', '0', '"'], 50⟩]

/-- Same days but a 100-TRIMP first run: the week ending day 13 has
zero runs and CTL ≥ 1 at its end. -/
def actsC : List Act :=
  [⟨0, 5, ['5', '\'', '0', '0', '"'], 100⟩, ⟨20, 5, ['5', '\'', '0', '0', '"'], 50⟩]

theorem actsB_daily : dailySeries actsB =
    [1, 0, 0, 0, 0, 0, 0, 0, 0, 0, 0, 0, 0, 0, 0, 0, 0, 0, 0, 0, 50] := by
  unfold dailySeries
  rw [show minDay actsB = 0 from by decide, show maxDay actsB = 20 from by decide]
  rw [show List.range (20 + 1 - 0) =
    [0, 1, 2, 3, 4, 5, 6, 7, 8, 9, 10, 11, 12, 13, 14, 15, 16, 17, 18, 19, 20]
    from by decide]
  simp only [List.map_cons, List.map_nil]
  norm_num [dayLoad, actsB]

theorem actsC_daily : dailySeries actsC =
    [100, 0, 0, 0, 0, 0, 0, 0, 0, 0, 0, 0, 0, 0, 0, 0, 0, 0, 0, 0, 50] := by
  unfold dailySeries
  rw [show minDay actsC = 0 from by decide, show maxDay actsC = 20 from by decide]
  rw [show List.range (20 + 1 - 0) =
    [0, 1, 2, 3, 4, 5, 6, 7, 8, 9, 10, 11, 12, 13, 14, 15, 16, 17, 18, 19, 20]
    from by decide]
  simp only [List.map_cons, List.map_nil]
  norm_num [dayLoad, actsC]

theorem actsB_ctl13 : ctlAt actsB (min (maxDay actsB) 13) < 1 := by
  unfold ctlAt ctlSeries alphaOf
  rw [actsB_daily, show minDay actsB = 0 from by decide,
    show min (maxDay actsB) 13 = 13 from by decide]
  norm_num [ewmaScan, ewmaStep, List.scanl, List.getD]

theorem actsC_ctl13 : 1 ≤ ctlAt actsC (min (maxDay actsC) 13) := by
  unfold ctlAt ctlSeries alphaOf
  rw [actsC_daily, show minDay actsC = 0 from by decide,
    show min (maxDay actsC) 13 = 13 from by decide]
  norm_num [ewmaScan, ewmaStep, List.scanl, List.getD]

/-- C9 witness: the amended theorem applied to `actsC` and the zero-run
week ending day 13 (whose CTL is ≈ 54.6 ≥ 1). -/
theorem claim_C9_witness :
    ∃ r ∈ backfillRows actsC, r.weekEnd = 13 ∧ r.runs = 0 ∧ r.dist = 0 ∧
      r.avgPace = ['-'] ∧ r.load = 0 ∧
      r.form = pyRound1 (tsbAt actsC (min (maxDay actsC) 13)) ∧
      r.status = statusOf (tsbAt actsC (min (maxDay actsC) 13)) :=
  (claim_C9_zero_run_week actsC 13 (by decide) rfl actsC_ctl13).1

/-- C9 counterexample: for `actsB` the data span covers the three weeks
ending days 6, 13 and 20, the week ending day 13 has zero runs, yet the
backfill emits rows only for weeks 6 and 20 — the zero-run week is
skipped because its CTL is below 1, refuting "every calendar week
containing zero runs still produces a report row". -/
theorem claim_C9_counterexample :
    weekEnds actsB = [6, 13, 20] ∧ weekActs actsB 13 = [] ∧
    (backfillRows actsB).map (fun r => r.weekEnd) = [6, 20] := by
  refine ⟨by decide, rfl, ?_⟩
  have hc6 : ¬(((weekActs actsB 6).map (fun a => a.dist)).sum = 0 ∧
      ctlAt actsB (min (maxDay actsB) 6) < 1) := by
    rw [show weekActs actsB 6 = [⟨0, 5, ['5', '\'', '0', '0', '"'], 1⟩] from rfl]
    intro h
    have h1 := h.1
    norm_num at h1
  have hc13 : ((weekActs actsB 13).map (fun a => a.dist)).sum = 0 ∧
      ctlAt actsB (min (maxDay actsB) 13) < 1 := by
    refine ⟨?_, actsB_ctl13⟩
    rw [show weekActs actsB 13 = [] from rfl]
    rfl
  have hc20 : ¬(((weekActs actsB 20).map (fun a => a.dist)).sum = 0 ∧
      ctlAt actsB (min (maxDay actsB) 20) < 1) := by
    rw [show weekActs actsB 20 = [⟨20, 5, ['5', '\'', '0', '0', '"'], 50⟩] from rfl]
    intro h
    have h1 := h.1
    norm_num at h1
  unfold backfillRows
  rw [show weekEnds actsB = [6, 13, 20] from by decide]
  rw [List.filterMap_cons, List.filterMap_cons, List.filterMap_cons,
    List.filterMap_nil]
  rw [if_neg hc6, if_pos hc13, if_neg hc20]
  rfl
